import Mathlib

/-!
Shallow embedding of the kurs_num2 job-search utility (Python) in Lean 4.

The embedding covers the data model (`Salary`, `Vacancy`), the storage layer
(`add_vacancy`, `get_vacancies` over a JSON-array file modelled as a list of
records), the HeadHunter client-side response filter, the raw-item conversion
`cast_to_object_list`, and the query-pipeline helpers of `main.py`.

Python conventions modelled explicitly:
  * `Optional[int]` / `Optional[str]` become `Option Int` / `Option String`;
  * Python truthiness of such values (`if x:`) is `truthyInt` / `truthyStr`
    (`None` and `0` / `""` are falsy);
  * an operation that can raise an uncaught exception returns `Option`,
    with `none` standing for the raised exception;
  * `datetime` is modelled structurally (`PyDateTime`) with `isoformat` /
    `fromisoformat` implementing the core ISO-8601 grammar of the standard
    library (date, optional `T`/space time, optional fraction, optional
    `+HH:MM` offset; a bare `Z` suffix is not accepted, which is why the
    source substitutes `+00:00` for it before parsing).
-/

namespace KursNum

/-- Python `str.lower`, modelled character-wise. -/
def lowerStr (s : String) : String := String.mk (s.data.map Char.toLower)

/-- Does the needle `nd` start the list `l`? -/
def matchesAt : List Char → List Char → Bool
  | _, [] => true
  | [], _ :: _ => false
  | h :: hs, n :: ns => h = n && matchesAt hs ns

/-- Does `nd` occur contiguously inside `hay`? -/
def hasSub (hay nd : List Char) : Bool :=
  (List.range (hay.length + 1)).any (fun i => matchesAt (hay.drop i) nd)

/-- Python `nd in hay` on strings (case-sensitive substring test). -/
def pyContains (hay nd : String) : Bool := hasSub hay.data nd.data

/-- Python truthiness of an `Optional[int]`: `None` and `0` are falsy. -/
def truthyInt : Option Int → Bool
  | some n => n != 0
  | none => false

/-- Python truthiness of an `Optional[str]`: `None` and `""` are falsy. -/
def truthyStr : Option String → Bool
  | some s => s != ""
  | none => false

/-- Python `str(x)` for an `Optional[int]` (`None` prints as "None"). -/
def optIntStr : Option Int → String
  | some n => toString n
  | none => "None"

/-! ## Salary (src/src/api/vacancy.py, class Salary) -/

/-- The `Salary` dataclass: optional bounds, currency, gross flag. -/
structure Salary where
  min_value : Option Int
  max_value : Option Int
  currency : String
  gross : Bool
  deriving DecidableEq, Repr

/-- `Salary.__post_init__`: both bounds absent coerces to the sentinel
`(0, 0)` with default currency. -/
def mkSalary (minv maxv : Option Int) (currency : String) (gross : Bool) : Salary :=
  match minv, maxv with
  | none, none => { min_value := some 0, max_value := some 0, currency := "RUR", gross := gross }
  | _, _ => { min_value := minv, max_value := maxv, currency := currency, gross := gross }

/-- `Salary.__lt__`: compare by `min_value` when both are truthy, else False. -/
def salary_lt (a b : Salary) : Bool :=
  if truthyInt a.min_value && truthyInt b.min_value then
    decide (a.min_value.getD 0 < b.min_value.getD 0)
  else false

/-- `Salary.__str__`: four display forms chosen by the bounds. -/
def salary_str (s : Salary) : String :=
  if s.min_value == some 0 && s.max_value == some 0 then "Зарплата не указана"
  else if truthyInt s.min_value && truthyInt s.max_value then
    "от " ++ toString (s.min_value.getD 0) ++ " до " ++ toString (s.max_value.getD 0)
      ++ " " ++ s.currency
  else if truthyInt s.min_value then
    "от " ++ toString (s.min_value.getD 0) ++ " " ++ s.currency
  else "до " ++ optIntStr s.max_value ++ " " ++ s.currency

/-- `Salary.in_range`. The final branch compares `max_value` directly; in
Python that comparison raises `TypeError` when `max_value` is `None`, which
is modelled by `none`. -/
def in_range (s : Salary) (min_salary max_salary : Int) : Option Bool :=
  if s.min_value == some 0 && s.max_value == some 0 then some false
  else if truthyInt s.min_value && truthyInt s.max_value then
    some (decide (min_salary ≤ s.min_value.getD 0 ∧ s.min_value.getD 0 ≤ max_salary)
       || decide (min_salary ≤ s.max_value.getD 0 ∧ s.max_value.getD 0 ≤ max_salary))
  else if truthyInt s.min_value then
    some (decide (min_salary ≤ s.min_value.getD 0 ∧ s.min_value.getD 0 ≤ max_salary))
  else
    match s.max_value with
    | some m => some (decide (min_salary ≤ m ∧ m ≤ max_salary))
    | none => none

/-! ## datetime (Python standard library collaborator) -/

/-- A Python `datetime` value, modelled structurally. `tz` is the UTC offset
in minutes (`none` for a naive datetime). -/
structure PyDateTime where
  year : Nat
  month : Nat
  day : Nat
  hour : Nat
  minute : Nat
  second : Nat
  micro : Nat
  tz : Option Int
  deriving DecidableEq, Repr

/-- Zero-pad the decimal rendering of `n` to width `w`. -/
def padNum (w n : Nat) : String :=
  let s := toString n
  String.mk (List.replicate (w - s.length) '0') ++ s

/-- Render a UTC offset (in minutes) as `+HH:MM` / `-HH:MM`. -/
def isoOffset (off : Int) : String :=
  if off < 0 then "-" ++ padNum 2 ((-off).toNat / 60) ++ ":" ++ padNum 2 ((-off).toNat % 60)
  else "+" ++ padNum 2 (off.toNat / 60) ++ ":" ++ padNum 2 (off.toNat % 60)

/-- `datetime.isoformat()`: `YYYY-MM-DDTHH:MM:SS[.ffffff][+HH:MM]`, with the
fraction printed only when the microsecond field is nonzero. -/
def isoformat (d : PyDateTime) : String :=
  padNum 4 d.year ++ "-" ++ padNum 2 d.month ++ "-" ++ padNum 2 d.day ++ "T" ++
  padNum 2 d.hour ++ ":" ++ padNum 2 d.minute ++ ":" ++ padNum 2 d.second ++
  (if d.micro == 0 then "" else "." ++ padNum 6 d.micro) ++
  (match d.tz with
   | none => ""
   | some off => isoOffset off)

/-- Parse exactly `k` decimal digits, accumulating into `acc`. -/
def digitsFixed : Nat → Nat → List Char → Option (Nat × List Char)
  | 0, acc, cs => some (acc, cs)
  | k + 1, acc, c :: cs =>
    if c.isDigit then digitsFixed k (acc * 10 + (c.toNat - 48)) cs else none
  | _ + 1, _, [] => none

/-- Require the next character to be `c`. -/
def expectChar (c : Char) : List Char → Option (List Char)
  | d :: cs => if d = c then some cs else none
  | [] => none

/-- Parse a fractional-seconds suffix of one to six digits into microseconds. -/
def fracDigits : Nat → Nat → List Char → Option (Nat × List Char)
  | k, acc, c :: cs =>
    if c.isDigit then
      if k = 0 then none
      else fracDigits (k - 1) (acc * 10 + (c.toNat - 48)) cs
    else some (acc * 10 ^ k, c :: cs)
  | k, acc, [] => some (acc * 10 ^ k, [])

/-- Parse a `±HH:MM` UTC offset, yielding minutes. -/
def parseOffset : List Char → Option (Int × List Char)
  | '+' :: cs =>
    match digitsFixed 2 0 cs with
    | some (h, cs₂) =>
      match expectChar ':' cs₂ with
      | some cs₃ =>
        match digitsFixed 2 0 cs₃ with
        | some (m, cs₄) => some ((h * 60 + m : Nat), cs₄)
        | none => none
      | none => none
    | none => none
  | '-' :: cs =>
    match digitsFixed 2 0 cs with
    | some (h, cs₂) =>
      match expectChar ':' cs₂ with
      | some cs₃ =>
        match digitsFixed 2 0 cs₃ with
        | some (m, cs₄) => some (-((h * 60 + m : Nat) : Int), cs₄)
        | none => none
      | none => none
    | none => none
  | _ => none

/-- The time-of-day and offset part of the ISO grammar, after the separator. -/
def parseTimePart (y mo d : Nat) (cs : List Char) : Option PyDateTime := do
  let (h, cs) ← digitsFixed 2 0 cs
  let cs ← expectChar ':' cs
  let (mi, cs) ← digitsFixed 2 0 cs
  let cs ← expectChar ':' cs
  let (s, cs) ← digitsFixed 2 0 cs
  if h ≤ 23 ∧ mi ≤ 59 ∧ s ≤ 59 then
    match cs with
    | [] => some ⟨y, mo, d, h, mi, s, 0, none⟩
    | '.' :: cs₂ => do
      let (mic, cs₃) ← fracDigits 6 0 cs₂
      match cs₃ with
      | [] => some ⟨y, mo, d, h, mi, s, mic, none⟩
      | rest => do
        let (off, cs₄) ← parseOffset rest
        if cs₄ = [] then some ⟨y, mo, d, h, mi, s, mic, some off⟩ else none
    | rest => do
      let (off, cs₄) ← parseOffset rest
      if cs₄ = [] then some ⟨y, mo, d, h, mi, s, 0, some off⟩ else none
  else none

/-- `datetime.fromisoformat`: the core grammar `YYYY-MM-DD[*HH:MM:SS[.f]][±HH:MM]`
with basic range validation; `none` models the `ValueError` it raises on
malformed input. -/
def fromisoformat (str : String) : Option PyDateTime := do
  let cs := str.data
  let (y, cs) ← digitsFixed 4 0 cs
  let cs ← expectChar '-' cs
  let (mo, cs) ← digitsFixed 2 0 cs
  let cs ← expectChar '-' cs
  let (d, cs) ← digitsFixed 2 0 cs
  if 1 ≤ mo ∧ mo ≤ 12 ∧ 1 ≤ d ∧ d ≤ 31 then
    match cs with
    | [] => some ⟨y, mo, d, 0, 0, 0, 0, none⟩
    | sep :: rest =>
      if sep = 'T' ∨ sep = ' ' then parseTimePart y mo d rest else none
  else none

/-- Python `str.replace("Z", "+00:00")`: every `Z` becomes `+00:00`. -/
def replaceZ (s : String) : String :=
  String.mk (s.data.foldr
    (fun c acc => if c = 'Z' then '+' :: '0' :: '0' :: ':' :: '0' :: '0' :: acc else c :: acc) [])

/-! ## Vacancy (src/src/api/vacancy.py, class Vacancy) -/

/-- A raw salary mapping as emitted by the remote API
(keys `from`/`to`/`currency`/`gross`). -/
structure RawSalary where
  from_ : Option Int
  to_ : Option Int
  currency : Option String
  gross : Option Bool
  deriving DecidableEq, Repr

/-- The `salary` argument to `Vacancy.__init__`: a typed `Salary`, a raw API
mapping, or `None`. -/
inductive SalaryArg where
  | sal (s : Salary)
  | dict (d : RawSalary)
  | null
  deriving DecidableEq, Repr

/-- `Vacancy._validate_salary`. -/
def validate_salary : SalaryArg → Salary
  | .sal s => s
  | .dict d => mkSalary d.from_ d.to_ (d.currency.getD "RUR") (d.gross.getD false)
  | .null => mkSalary none none "RUR" false

/-- The `Vacancy` record (the private attributes set by `__init__`). -/
structure Vacancy where
  id : String
  title : String
  salary : Salary
  description : String
  company_name : String
  url : String
  requirements : String
  experience : String
  employment : String
  created_at : PyDateTime
  deriving DecidableEq, Repr

/-- `Vacancy.__init__`: validates the salary and defaults `created_at` to the
construction time `now` (a `datetime` is always truthy, so `created_at or
datetime.now()` keeps any given value). -/
def mkVacancy (vacancy_id title : String) (salary : SalaryArg)
    (description company_name url requirements experience employment : String)
    (created_at : Option PyDateTime) (now : PyDateTime) : Vacancy :=
  { id := vacancy_id, title := title, salary := validate_salary salary,
    description := description, company_name := company_name, url := url,
    requirements := requirements, experience := experience,
    employment := employment, created_at := created_at.getD now }

/-- `Vacancy.contains_keywords`: every keyword appears (lower-cased) in the
description, the requirements or the title. -/
def contains_keywords (v : Vacancy) (keywords : List String) : Bool :=
  let description_lower := lowerStr v.description
  let requirements_lower := lowerStr v.requirements
  let title_lower := lowerStr v.title
  keywords.all (fun keyword =>
    pyContains description_lower (lowerStr keyword) ||
    pyContains requirements_lower (lowerStr keyword) ||
    pyContains title_lower (lowerStr keyword))

/-- `Vacancy.__lt__`: delegates to the salary ordering. -/
def vacancy_lt (a b : Vacancy) : Bool := salary_lt a.salary b.salary

/-- Python `int(str)`: digits with single underscores between them. -/
def digitsU : Nat → List Char → Option Nat
  | acc, [] => some acc
  | acc, '_' :: d :: ds =>
    if d.isDigit then digitsU (acc * 10 + (d.toNat - 48)) ds else none
  | _, ['_'] => none
  | acc, c :: cs =>
    if c.isDigit then digitsU (acc * 10 + (c.toNat - 48)) cs else none

/-- Python `int(str)` digit part: first character must be a digit. -/
def pyIntCore : List Char → Option Nat
  | c :: cs => if c.isDigit then digitsU (c.toNat - 48) cs else none
  | [] => none

/-- Whitespace stripped by Python `int()`. -/
def isPySpace (c : Char) : Bool :=
  c = ' ' || c = '\t' || c = '\n' || c = '\r' || c = '\x0b' || c = '\x0c'

/-- Python `int(str)`: strip whitespace, optional sign, digits;
`none` models the `ValueError` raised on malformed input. -/
def pyInt (s : String) : Option Int :=
  let t := ((s.data.dropWhile isPySpace).reverse.dropWhile isPySpace).reverse
  match t with
  | '+' :: rest => (pyIntCore rest).map (fun n => (n : Int))
  | '-' :: rest => (pyIntCore rest).map (fun n => -(n : Int))
  | rest => (pyIntCore rest).map (fun n => (n : Int))

/-- Split a character list on `'-'` (Python `str.split("-")`). -/
def splitDash (cs : List Char) : List (List Char) :=
  cs.foldr
    (fun c acc =>
      if c = '-' then [] :: acc
      else
        match acc with
        | g :: gs => (c :: g) :: gs
        | [] => [[c]])
    [[]]

/-- The parsing step of `Vacancy.salary_in_range`: remove every space, split
on the dash, require exactly two integer pieces. `none` models the
`ValueError` that the method catches. -/
def parse_salary_range (salary_range : String) : Option (Int × Int) :=
  match (splitDash (salary_range.data.filter (fun c => c ≠ ' '))).map
      (fun p => pyInt (String.mk p)) with
  | [some a, some b] => some (a, b)
  | _ => none

/-- `Vacancy.salary_in_range`: parse failures are caught and yield `False`,
but a `TypeError` escaping `Salary.in_range` is not caught (`none`). -/
def salary_in_range (v : Vacancy) (salary_range : String) : Option Bool :=
  match parse_salary_range salary_range with
  | some (mn, mx) => in_range v.salary mn mx
  | none => some false

/-! ## Local storage (src/src/storage.py, class JSONVacancyStorage) -/

/-- The nested `salary` object written by `add_vacancy`. -/
structure SalaryDict where
  min_value : Option Int
  max_value : Option Int
  currency : String
  gross : Bool
  deriving DecidableEq, Repr

/-- One element of the persisted JSON array, exactly the keys `add_vacancy`
writes (`created_at` is a nullable ISO string). -/
structure VacDict where
  id : String
  title : String
  salary : SalaryDict
  description : String
  company_name : String
  url : String
  requirements : String
  experience : String
  employment : String
  created_at : Option String
  deriving DecidableEq, Repr

/-- The serialization block of `JSONVacancyStorage.add_vacancy`. A `Vacancy`
always carries a (truthy) datetime, so `created_at` serializes to its
`isoformat` string. -/
def vacancy_to_dict (v : Vacancy) : VacDict :=
  { id := v.id, title := v.title,
    salary := { min_value := v.salary.min_value, max_value := v.salary.max_value,
                currency := v.salary.currency, gross := v.salary.gross },
    description := v.description, company_name := v.company_name, url := v.url,
    requirements := v.requirements, experience := v.experience,
    employment := v.employment, created_at := some (isoformat v.created_at) }

/-- `JSONVacancyStorage.add_vacancy` on the decoded file contents: replace
the first element whose `id` matches, else append. -/
def add_vacancy : List VacDict → Vacancy → List VacDict
  | [], v => [vacancy_to_dict v]
  | d :: ds, v =>
    if d.id = v.id then vacancy_to_dict v :: ds else d :: add_vacancy ds v

/-- `JSONVacancyStorage._dict_to_vacancy`: rebuild the `Salary` through the
dataclass constructor (so `__post_init__` applies again) and parse
`created_at` when it is a truthy string; a raised `ValueError` from
`fromisoformat` is modelled by `none`. -/
def dict_to_vacancy (d : VacDict) (now : PyDateTime) : Option Vacancy :=
  let salary := mkSalary d.salary.min_value d.salary.max_value d.salary.currency d.salary.gross
  match d.created_at with
  | some s =>
    if s = "" then
      some (mkVacancy d.id d.title (SalaryArg.sal salary) d.description d.company_name
        d.url d.requirements d.experience d.employment none now)
    else
      (fromisoformat s).map (fun dt =>
        mkVacancy d.id d.title (SalaryArg.sal salary) d.description d.company_name
          d.url d.requirements d.experience d.employment (some dt) now)
  | none =>
    some (mkVacancy d.id d.title (SalaryArg.sal salary) d.description d.company_name
      d.url d.requirements d.experience d.employment none now)

/-- `JSONVacancyStorage.get_vacancies`: keep the records whose title or
description contains the keyword (case-insensitive), reconstructing each;
a reconstruction failure propagates (`none`). -/
def get_vacancies (vacancies : List VacDict) (keyword : Option String)
    (now : PyDateTime) : Option (List Vacancy) :=
  (vacancies.filter (fun d =>
    match keyword with
    | none => true
    | some k => pyContains (lowerStr d.title) (lowerStr k)
             || pyContains (lowerStr d.description) (lowerStr k))).mapM
    (fun d => dict_to_vacancy d now)

/-! ## HeadHunter client-side filter (src/src/hh_api.py, get_vacancies) -/

/-- The `snippet` sub-object of a raw response item. -/
structure HHSnippet where
  requirement : Option String
  responsibility : Option String
  deriving DecidableEq, Repr

/-- The `experience` / `employment` / `employer` sub-objects. -/
structure HHNamed where
  id : Option String
  name : Option String
  deriving DecidableEq, Repr

/-- A raw response item as the client-side filter reads it. A missing key, a
null value and an empty (falsy) sub-object are all modelled by `none`. -/
structure HHItem where
  id : Option String
  name : Option String
  description : Option String
  snippet : Option HHSnippet
  salary : Option RawSalary
  experience : Option HHNamed
  employer : Option HHNamed
  employment : Option HHNamed
  alternate_url : Option String
  created_at : Option String
  deriving DecidableEq, Repr

/-- The item's `experience.id`, as `vacancy.get("experience", {}).get("id")`. -/
def hhExpId (it : HHItem) : Option String :=
  match it.experience with
  | some e => e.id
  | none => none

/-- One pass of the `continue`-chain in `HeadHunterAPI.get_vacancies`:
text must appear in name, description, snippet requirement or snippet
responsibility (lower-cased); salary bounds are re-checked only when the
bound was requested (truthy) and the item has a truthy salary sub-object;
the experience id must match when requested. -/
def hh_keeps (text : String) (salary_from salary_to : Option Int)
    (experience : Option String) (it : HHItem) : Bool :=
  let text_lower := lowerStr text
  let nm := lowerStr (it.name.getD "")
  let descr := lowerStr (it.description.getD "")
  let req := lowerStr (match it.snippet with
    | some sn => sn.requirement.getD ""
    | none => "")
  let resp := lowerStr (match it.snippet with
    | some sn => sn.responsibility.getD ""
    | none => "")
  (pyContains nm text_lower || pyContains descr text_lower ||
   pyContains req text_lower || pyContains resp text_lower) &&
  (match it.salary with
   | none => true
   | some sd =>
     (if truthyInt salary_from then
        truthyInt sd.from_ && decide (salary_from.getD 0 ≤ sd.from_.getD 0)
      else true) &&
     (if truthyInt salary_to then
        truthyInt sd.to_ && decide (sd.to_.getD 0 ≤ salary_to.getD 0)
      else true)) &&
  (if truthyStr experience then hhExpId it == experience else true)

/-- The response post-processing of `HeadHunterAPI.get_vacancies`: the
sequential filter followed by the `[:per_page]` truncation. -/
def pySliceTo (l : List α) (n : Int) : List α :=
  if 0 ≤ n then l.take n.toNat else l.take ((l.length : Int) + n).toNat

/-- `HeadHunterAPI.get_vacancies`, from the parsed response items onward. -/
def hh_get_vacancies (text : String) (salary_from salary_to : Option Int)
    (experience : Option String) (per_page : Int) (items : List HHItem) : List HHItem :=
  pySliceTo (items.filter (hh_keeps text salary_from salary_to experience)) per_page

/-! ## cast_to_object_list (src/src/api/vacancy.py) -/

/-- `Vacancy.cast_to_object_list` on one raw item: nested fields default to
the empty string, and `created_at` defaults to `now.isoformat()` only when
the key is absent; a present value is parsed after substituting `+00:00`
for `Z`, and a parse failure raises (`none`). -/
def cast_item (data : HHItem) (now : PyDateTime) : Option Vacancy :=
  let createdStr := replaceZ (data.created_at.getD (isoformat now))
  (fromisoformat createdStr).map (fun dt =>
    mkVacancy (data.id.getD "") (data.name.getD "")
      (match data.salary with
       | none => SalaryArg.null
       | some sd => SalaryArg.dict sd)
      (data.description.getD "")
      (match data.employer with
       | some e => e.name.getD ""
       | none => "")
      (data.alternate_url.getD "")
      (match data.snippet with
       | some sn => sn.requirement.getD ""
       | none => "")
      (match data.experience with
       | some e => e.name.getD ""
       | none => "")
      (match data.employment with
       | some e => e.name.getD ""
       | none => "")
      (some dt) now)

/-- `Vacancy.cast_to_object_list`: the list comprehension; the first raised
`ValueError` propagates out of the whole call. -/
def cast_to_object_list (items : List HHItem) (now : PyDateTime) : Option (List Vacancy) :=
  items.mapM (fun d => cast_item d now)

/-! ## Query pipeline (src/main.py) -/

/-- `main.filter_vacancies`. -/
def filter_vacancies (vacancies : List Vacancy) (filter_words : List String) : List Vacancy :=
  vacancies.filter (fun v => contains_keywords v filter_words)

/-- `main.get_top_vacancies`: Python `vacancies[:n]`. -/
def get_top_vacancies (vacancies : List Vacancy) (n : Int) : List Vacancy :=
  pySliceTo vacancies n

/-- The claim's reading of `get_top_vacancies`: "the first `n` elements",
taking a negative count to mean no elements. Kept separate from the code's
slicing semantics so the two can be compared. -/
def specFirstN (n : Int) (l : List Vacancy) : List Vacancy := l.take n.toNat

/-! ## Specification-side predicates -/

/-- The spec's "case-insensitive substring": the lower-cased needle occurs
contiguously in the lower-cased text. -/
def ciSubstr (k text : String) : Prop :=
  ∃ l r, (lowerStr text).data = l ++ (lowerStr k).data ++ r

/-! ## Helper lemmas about the substring test -/

theorem matchesAt_iff (nd : List Char) : ∀ l : List Char,
    matchesAt l nd = true ↔ ∃ r, l = nd ++ r := by
  induction nd with
  | nil => intro l; simp [matchesAt]
  | cons n ns ih =>
    intro l
    cases l with
    | nil => simp [matchesAt]
    | cons h hs =>
      simp only [matchesAt, Bool.and_eq_true, decide_eq_true_eq, ih hs,
        List.cons_append, List.cons.injEq]
      constructor
      · rintro ⟨rfl, r, rfl⟩
        exact ⟨r, rfl, rfl⟩
      · rintro ⟨r, rfl, rfl⟩
        exact ⟨rfl, r, rfl⟩

theorem hasSub_iff (hay nd : List Char) :
    hasSub hay nd = true ↔ ∃ l r, hay = l ++ nd ++ r := by
  unfold hasSub
  rw [List.any_eq_true]
  constructor
  · rintro ⟨i, _, hm⟩
    rw [matchesAt_iff] at hm
    obtain ⟨r, hr⟩ := hm
    exact ⟨hay.take i, r, by rw [List.append_assoc, ← hr, List.take_append_drop]⟩
  · rintro ⟨l, r, rfl⟩
    refine ⟨l.length, ?_, ?_⟩
    · rw [List.mem_range]
      simp only [List.append_assoc, List.length_append]
      omega
    · rw [matchesAt_iff]
      exact ⟨r, by rw [List.append_assoc, List.drop_left]⟩

theorem pyContains_lower_iff (k t : String) :
    pyContains (lowerStr t) (lowerStr k) = true ↔ ciSubstr k t :=
  hasSub_iff (lowerStr t).data (lowerStr k).data

/-! ## C1: Salary.in_range semantics -/

/-- C1, counterexample. A salary with both values present but `min_value = 0`
(`Salary(0, 150000)`): the claimed overlap condition holds at bounds
`(0, 10)` through the min bound, yet `in_range` only tests the max bound and
returns false, because the code tests Python truthiness, not presence. -/
theorem claim_C1_counterexample :
    (mkSalary (some 0) (some 150000) "RUR" false).min_value = some 0 ∧
    (mkSalary (some 0) (some 150000) "RUR" false).max_value = some 150000 ∧
    ((0 : Int) ≤ 0 ∧ (0 : Int) ≤ 10) ∧
    in_range (mkSalary (some 0) (some 150000) "RUR" false) 0 10 = some false := by
  decide

/-- C1, amended: `in_range` returns false for the `(0, 0)` sentinel; and for
every salary whose min and max values are both present AND nonzero (truthy),
it is true iff either bound falls within `[lo, hi]` inclusive. -/
theorem claim_C1 (s : Salary) (lo hi : Int) :
    (s.min_value = some 0 → s.max_value = some 0 → in_range s lo hi = some false) ∧
    (∀ a b : Int, s.min_value = some a → s.max_value = some b → a ≠ 0 → b ≠ 0 →
      (in_range s lo hi = some true ↔ (lo ≤ a ∧ a ≤ hi) ∨ (lo ≤ b ∧ b ≤ hi))) := by
  obtain ⟨mn, mx, cur, gr⟩ := s
  constructor
  · rintro rfl rfl
    simp [in_range]
  · rintro a b rfl rfl ha hb
    have h₁ : ((some a : Option Int) == some 0 && (some b : Option Int) == some 0) = false := by
      simp [ha]
    have h₂ : (truthyInt (some a) && truthyInt (some b)) = true := by
      simp [truthyInt, ha, hb]
    simp [in_range, h₁, h₂, ha, hb]

/-! ## C2: contains_keywords -/

/-- C2: `contains_keywords` is true iff every keyword is a case-insensitive
substring of the title, the description or the requirements; the empty
keyword list is vacuously true. -/
theorem claim_C2 (v : Vacancy) (K : List String) :
    (contains_keywords v K = true ↔
      ∀ k ∈ K, ciSubstr k v.title ∨ ciSubstr k v.description ∨ ciSubstr k v.requirements) ∧
    contains_keywords v [] = true := by
  constructor
  · unfold contains_keywords
    simp only [List.all_eq_true, Bool.or_eq_true, pyContains_lower_iff]
    constructor
    · intro h k hk
      rcases h k hk with (h₁ | h₁) | h₁
      · exact Or.inr (Or.inl h₁)
      · exact Or.inr (Or.inr h₁)
      · exact Or.inl h₁
    · intro h k hk
      rcases h k hk with h₁ | h₁ | h₁
      · exact Or.inr h₁
      · exact Or.inl (Or.inl h₁)
      · exact Or.inl (Or.inr h₁)
  · rfl

/-! ## C5: the salary (and vacancy) ordering -/

/-- C5: `a < b` holds exactly when both `min_value`s are truthy (present and
nonzero) and `a.min_value < b.min_value`; the relation is asymmetric and not
total; the `Vacancy` ordering delegates to it. -/
theorem claim_C5 (a b : Salary) :
    (salary_lt a b = true ↔
      ∃ x y : Int, a.min_value = some x ∧ b.min_value = some y ∧ x ≠ 0 ∧ y ≠ 0 ∧ x < y) ∧
    (¬ (salary_lt a b = true ∧ salary_lt b a = true)) ∧
    (∀ v w : Vacancy, vacancy_lt v w = salary_lt v.salary w.salary) ∧
    (∃ s t : Salary, s ≠ t ∧ salary_lt s t = false ∧ salary_lt t s = false) := by
  have hiff : ∀ p q : Salary, salary_lt p q = true ↔
      ∃ x y : Int, p.min_value = some x ∧ q.min_value = some y ∧ x ≠ 0 ∧ y ≠ 0 ∧ x < y := by
    intro p q
    unfold salary_lt truthyInt
    cases hp : p.min_value with
    | none => simp
    | some x =>
      cases hq : q.min_value with
      | none => simp
      | some y =>
        by_cases hx : x = 0 <;> by_cases hy : y = 0 <;>
          simp [hx, hy, Option.getD_some]
  refine ⟨hiff a b, ?_, fun _ _ => rfl, ?_⟩
  · rintro ⟨h₁, h₂⟩
    rw [hiff a b] at h₁
    rw [hiff b a] at h₂
    obtain ⟨x, y, hax, hby, _, _, hxy⟩ := h₁
    obtain ⟨y₂, x₂, hby₂, hax₂, _, _, hyx⟩ := h₂
    rw [hby] at hby₂
    rw [hax] at hax₂
    cases hby₂
    cases hax₂
    omega
  · exact ⟨⟨some 0, some 0, "RUR", false⟩, ⟨some 1, none, "RUR", false⟩, by decide, by decide,
      by decide⟩

/-! ## C10: the explicit zero salary behaves as the sentinel -/

/-- C10: a salary constructed with explicit `min_value = 0, max_value = 0`
displays the "not specified" form and fails every `in_range` test, exactly
like the sentinel produced from two absent bounds. -/
theorem claim_C10 (c : String) (g : Bool) (lo hi : Int) :
    salary_str (mkSalary (some 0) (some 0) c g) = "Зарплата не указана" ∧
    in_range (mkSalary (some 0) (some 0) c g) lo hi = some false ∧
    salary_str (mkSalary (some 0) (some 0) c g) = salary_str (mkSalary none none c g) ∧
    in_range (mkSalary (some 0) (some 0) c g) lo hi =
      in_range (mkSalary none none c g) lo hi := by
  refine ⟨rfl, ?_, rfl, ?_⟩ <;> simp [mkSalary, in_range]

/-! ## Concrete sample values shared by witnesses and counterexamples -/

/-- A concrete well-formed datetime. -/
def sampleDT : PyDateTime := ⟨2024, 1, 2, 3, 4, 5, 0, none⟩

/-- A concrete vacancy with the sentinel salary. -/
def sampleVac (s : String) : Vacancy :=
  mkVacancy s s SalaryArg.null "" "" "" "" "" "" (some sampleDT) sampleDT

/-! ## C9: get_top_vacancies -/

/-- C9, counterexample. At `n = -1` Python slicing drops the last element
instead of returning "the first `-1` elements" (none): on a two-element list
the code keeps the first element while the claim's reading keeps nothing. -/
theorem claim_C9_counterexample :
    get_top_vacancies [sampleVac "a", sampleVac "b"] (-1) = [sampleVac "a"] ∧
    specFirstN (-1) [sampleVac "a", sampleVac "b"] = [] := by
  decide

/-- C9, amended: for every `n ≥ 0`, `get_top_vacancies` returns the first
`n` elements (all of them when `n` exceeds the length, none when `n = 0`);
a negative `n` follows Python slicing and drops `-n` elements from the end. -/
theorem claim_C9 (l : List Vacancy) (n : Int) :
    (0 ≤ n → get_top_vacancies l n = specFirstN n l) ∧
    get_top_vacancies l 0 = [] ∧
    get_top_vacancies l ((l.length : Int) + 5) = l ∧
    (n < 0 → get_top_vacancies l n = l.take ((l.length : Int) + n).toNat) := by
  refine ⟨fun h => ?_, by simp [get_top_vacancies, pySliceTo, specFirstN], ?_, fun h => ?_⟩
  · simp [get_top_vacancies, pySliceTo, specFirstN, h]
  · have h₅ : (0 : Int) ≤ (l.length : Int) + 5 := by omega
    have h₆ : ((l.length : Int) + 5).toNat = l.length + 5 := by omega
    simp only [get_top_vacancies, pySliceTo, if_pos h₅, h₆]
    exact List.take_of_length_le (by omega)
  · simp only [get_top_vacancies, pySliceTo, if_neg (by omega : ¬ (0 : Int) ≤ n)]

/-! ## C6: salary_in_range error handling -/

/-- A vacancy whose salary has `min_value = 0` and `max_value` absent, as
produced from the raw API mapping `{"from": 0}`. -/
def weirdVacancy : Vacancy :=
  mkVacancy "w" "w" (SalaryArg.dict ⟨some 0, none, none, none⟩) "" "" "" "" "" ""
    (some sampleDT) sampleDT

/-- C6, counterexample. On a well-formed range string, a salary of the shape
`Salary(0, None)` drives `in_range` into the branch that compares the absent
`max_value`, raising `TypeError` (`none`), which `salary_in_range` does not
catch — so the method can raise. -/
theorem claim_C6_counterexample :
    parse_salary_range "100-200" = some (100, 200) ∧
    salary_in_range weirdVacancy "100-200" = none := by
  decide

/-- The exact shapes on which `in_range` is a raised `TypeError`. -/
theorem in_range_none_iff (s : Salary) (lo hi : Int) :
    in_range s lo hi = none ↔ s.max_value = none ∧ truthyInt s.min_value = false := by
  obtain ⟨mn, mx, cur, gr⟩ := s
  cases mn with
  | none => cases mx with
    | none => simp [in_range, truthyInt]
    | some m => simp [in_range, truthyInt]
  | some x =>
    by_cases hx : x = 0
    · subst hx
      cases mx with
      | none => simp [in_range, truthyInt]
      | some m =>
        by_cases hm : m = 0 <;> simp [in_range, truthyInt, hm]
    · cases mx with
      | none => simp [in_range, truthyInt, hx]
      | some m =>
        by_cases hm : m = 0 <;> simp [in_range, truthyInt, hx, hm]

/-- C6, amended: provided the salary's `max_value` is present or its
`min_value` is truthy, `salary_in_range` never raises: when the range string
parses (after removing spaces) as two dash-separated integers the result is
`Salary.in_range` at those bounds, and every malformed string yields false.
(For a salary with absent `max_value` and falsy `min_value`, such as
`Salary(0, None)`, the delegated comparison raises an uncaught `TypeError`.) -/
theorem claim_C6 (v : Vacancy) (s : String)
    (hsal : v.salary.max_value ≠ none ∨ truthyInt v.salary.min_value = true) :
    (∀ lo hi, parse_salary_range s = some (lo, hi) →
      salary_in_range v s = in_range v.salary lo hi ∧ salary_in_range v s ≠ none) ∧
    (parse_salary_range s = none → salary_in_range v s = some false) := by
  constructor
  · intro lo hi hp
    have heq : salary_in_range v s = in_range v.salary lo hi := by
      unfold salary_in_range
      rw [hp]
    refine ⟨heq, ?_⟩
    rw [heq]
    intro hn
    rw [in_range_none_iff] at hn
    rcases hsal with h | h
    · exact h hn.1
    · rw [h] at hn
      exact Bool.noConfusion hn.2
  · intro hp
    unfold salary_in_range
    rw [hp]

/-- C6, witness: on the sentinel-salaried sample vacancy and the range
string "100-200" the method returns the delegated `in_range` value and does
not raise. -/
theorem claim_C6_witness :
    salary_in_range (sampleVac "a") "100-200" = in_range (sampleVac "a").salary 100 200 ∧
    salary_in_range (sampleVac "a") "100-200" ≠ none :=
  (claim_C6 (sampleVac "a") "100-200" (Or.inl (by decide))).1 100 200 (by decide)

/-! ## C7: created_at handling in cast_to_object_list -/

/-- A raw item whose `created_at` is present but not ISO-8601. -/
def garbageItem : HHItem :=
  { id := some "1", name := some "n", description := none, snippet := none, salary := none,
    experience := none, employer := none, employment := none, alternate_url := none,
    created_at := some "not-a-date" }

/-- C7, counterexample. An item with a present but unparseable `created_at`
makes the conversion raise `ValueError` (`none`) — it does not default to
the construction time, and `cast_to_object_list` fails as a whole. -/
theorem claim_C7_counterexample :
    cast_item garbageItem sampleDT = none ∧
    cast_to_object_list [garbageItem] sampleDT = none := by
  decide

/-- C7, amended: the conversion defaults `created_at` to the construction
time when the key is absent, and accepts an ISO-8601 timestamp with a
trailing `Z` by substituting a `+00:00` offset; a present value that still
fails to parse raises instead of defaulting. -/
theorem claim_C7 (it : HHItem) (now : PyDateTime) :
    (it.created_at = none → fromisoformat (replaceZ (isoformat now)) = some now →
      ∃ v, cast_item it now = some v ∧ v.created_at = now) ∧
    (∀ s dt, it.created_at = some s → fromisoformat (replaceZ s) = some dt →
      ∃ v, cast_item it now = some v ∧ v.created_at = dt) := by
  constructor
  · intro h hp
    unfold cast_item
    rw [h]
    simp only [Option.getD_none, hp, Option.map_some]
    exact ⟨_, rfl, rfl⟩
  · intro s dt h hp
    unfold cast_item
    rw [h]
    simp only [Option.getD_some, hp, Option.map_some]
    exact ⟨_, rfl, rfl⟩

/-- C7, witness: with `created_at` absent the sample item converts to a
vacancy stamped with the construction time, and a trailing-`Z` timestamp is
accepted. -/
theorem claim_C7_witness :
    (∃ v, cast_item { garbageItem with created_at := none } sampleDT = some v ∧
      v.created_at = sampleDT) ∧
    (∃ v, cast_item { garbageItem with created_at := some "2024-01-02T03:04:05Z" }
        ⟨2020, 5, 6, 7, 8, 9, 0, none⟩ = some v ∧
      v.created_at = ⟨2024, 1, 2, 3, 4, 5, 0, some 0⟩) :=
  ⟨(claim_C7 { garbageItem with created_at := none } sampleDT).1 rfl (by decide),
   (claim_C7 { garbageItem with created_at := some "2024-01-02T03:04:05Z" }
       ⟨2020, 5, 6, 7, 8, 9, 0, none⟩).2 "2024-01-02T03:04:05Z"
     ⟨2024, 1, 2, 3, 4, 5, 0, some 0⟩ rfl (by decide)⟩

/-! ## Helper lemmas about the storage layer -/

theorem mem_add_vacancy (st : List VacDict) (v : Vacancy) :
    vacancy_to_dict v ∈ add_vacancy st v := by
  induction st with
  | nil => exact List.mem_singleton_self _
  | cons d ds ih =>
    unfold add_vacancy
    by_cases h : d.id = v.id
    · rw [if_pos h]
      exact List.mem_cons_self _ _
    · rw [if_neg h]
      exact List.mem_cons_of_mem _ ih

theorem mapM_option_mem {α β : Type} {f : α → Option β} :
    ∀ {ds : List α} {res : List β} {d : α} {x : β},
      ds.mapM f = some res → d ∈ ds → f d = some x → x ∈ res := by
  intro ds
  induction ds with
  | nil =>
    intro res d x _ hd
    cases hd
  | cons a as ih =>
    intro res d x h hd hf
    rw [List.mapM_cons] at h
    cases hfa : f a with
    | none =>
      rw [hfa] at h
      simp at h
    | some b =>
      rw [hfa] at h
      cases hms : as.mapM f with
      | none =>
        rw [hms] at h
        simp at h
      | some bs =>
        rw [hms] at h
        simp at h
        subst h
        rcases List.mem_cons.mp hd with rfl | hd₂
        · rw [hf] at hfa
          cases hfa
          exact List.mem_cons_self _ _
        · exact List.mem_cons_of_mem _ (ih hms hd₂ hf)

/-! ## C3: storage round-trip -/

/-- C3: for a well-formed `created_at` (one whose ISO rendering parses back
to itself) and a construction-valid salary, the record written by
`add_vacancy` reads back equal to the original in all fields, and whenever
`get_vacancies` succeeds on the updated store, the original vacancy is among
the results. -/
theorem claim_C3 (v : Vacancy) (now : PyDateTime) (st : List VacDict)
    (hsal : ¬(v.salary.min_value = none ∧ v.salary.max_value = none))
    (hdt : fromisoformat (isoformat v.created_at) = some v.created_at) :
    dict_to_vacancy (vacancy_to_dict v) now = some v ∧
    ∀ res, get_vacancies (add_vacancy st v) none now = some res → v ∈ res := by
  have hempty : fromisoformat "" = none := by decide
  have hne : isoformat v.created_at ≠ "" := by
    intro h
    rw [h, hempty] at hdt
    exact Option.noConfusion hdt
  have h₁ : dict_to_vacancy (vacancy_to_dict v) now = some v := by
    obtain ⟨vid, vt, ⟨mn, mx, cur, gr⟩, vd, vc, vu, vr, vex, vem, vca⟩ := v
    simp only [vacancy_to_dict, dict_to_vacancy] at *
    rw [if_neg hne, hdt]
    simp only [Option.map_some', Option.some.injEq]
    unfold mkVacancy validate_salary
    simp only [Option.getD_some]
    cases mn with
    | some x => cases mx <;> rfl
    | none =>
      cases mx with
      | none => exact absurd ⟨rfl, rfl⟩ hsal
      | some y => rfl
  refine ⟨h₁, fun res hres => ?_⟩
  unfold get_vacancies at hres
  rw [List.filter_true] at hres
  exact mapM_option_mem hres (mem_add_vacancy st v) h₁

/-- C3, witness: the sample vacancy written to the empty store reads back
unchanged. -/
theorem claim_C3_witness :
    dict_to_vacancy (vacancy_to_dict (sampleVac "a")) sampleDT = some (sampleVac "a") ∧
    sampleVac "a" ∈ [sampleVac "a"] :=
  ⟨(claim_C3 (sampleVac "a") sampleDT [] (by decide) (by decide)).1,
   (claim_C3 (sampleVac "a") sampleDT [] (by decide) (by decide)).2 [sampleVac "a"] (by decide)⟩

/-! ## C4: add_vacancy replaces in place or appends -/

theorem add_vacancy_append (st : List VacDict) (v : Vacancy)
    (h : v.id ∉ st.map VacDict.id) :
    add_vacancy st v = st ++ [vacancy_to_dict v] := by
  induction st with
  | nil => rfl
  | cons d ds ih =>
    simp only [List.map_cons, List.mem_cons] at h
    push_neg at h
    unfold add_vacancy
    rw [if_neg (fun he => h.1 he.symm), ih h.2]
    rfl

theorem add_vacancy_set (st : List VacDict) (v : Vacancy)
    (h : (st.map VacDict.id).Nodup) :
    ∀ i (hi : i < st.length), (st.get ⟨i, hi⟩).id = v.id →
      add_vacancy st v = st.set i (vacancy_to_dict v) := by
  induction st with
  | nil =>
    intro i hi
    simp at hi
  | cons d ds ih =>
    intro i hi hid
    simp only [List.map_cons, List.nodup_cons] at h
    cases i with
    | zero =>
      have hid₀ : d.id = v.id := hid
      unfold add_vacancy
      rw [if_pos hid₀]
      rfl
    | succ j =>
      have hj : j < ds.length := by simpa using hi
      have hget : (ds.get ⟨j, hj⟩).id = v.id := hid
      have hd : d.id ≠ v.id := by
        intro he
        apply h.1
        rw [he, ← hget]
        exact List.mem_map_of_mem VacDict.id (List.get_mem ds j hj)
      unfold add_vacancy
      rw [if_neg hd, ih h.2 j hj hget]
      rfl

theorem add_vacancy_ids (st : List VacDict) (v : Vacancy) :
    (add_vacancy st v).map VacDict.id =
      if v.id ∈ st.map VacDict.id then st.map VacDict.id
      else st.map VacDict.id ++ [v.id] := by
  induction st with
  | nil => simp [add_vacancy, vacancy_to_dict]
  | cons d ds ih =>
    unfold add_vacancy
    by_cases h : d.id = v.id
    · rw [if_pos h]
      simp [vacancy_to_dict, h]
    · rw [if_neg h]
      simp only [List.map_cons, ih]
      by_cases hm : v.id ∈ ds.map VacDict.id
      · rw [if_pos hm, if_pos (List.mem_cons_of_mem _ hm)]
      · rw [if_neg hm, if_neg ?_]
        · rfl
        · intro hc
          rcases List.mem_cons.mp hc with he | he
          · exact h he.symm
          · exact hm he

theorem add_vacancy_nodup (st : List VacDict) (v : Vacancy)
    (h : (st.map VacDict.id).Nodup) : ((add_vacancy st v).map VacDict.id).Nodup := by
  rw [add_vacancy_ids]
  by_cases hm : v.id ∈ st.map VacDict.id
  · rwa [if_pos hm]
  · rw [if_neg hm]
    simp [List.nodup_append, h, hm]

theorem add_vacancy_filter (st : List VacDict) (v : Vacancy)
    (h : (st.map VacDict.id).Nodup) :
    (add_vacancy st v).filter (fun d => d.id == v.id) = [vacancy_to_dict v] := by
  induction st with
  | nil => simp [add_vacancy, List.filter, vacancy_to_dict]
  | cons d ds ih =>
    simp only [List.map_cons, List.nodup_cons] at h
    unfold add_vacancy
    by_cases hd : d.id = v.id
    · rw [if_pos hd]
      rw [List.filter_cons]
      have hkeep : ((vacancy_to_dict v).id == v.id) = true := by
        simp [vacancy_to_dict]
      rw [if_pos hkeep]
      have hnone : ds.filter (fun d => d.id == v.id) = [] := by
        rw [List.filter_eq_nil_iff]
        intro x hx hbeq
        rw [beq_iff_eq] at hbeq
        apply h.1
        rw [hd, ← hbeq]
        exact List.mem_map_of_mem VacDict.id hx
      rw [hnone]
    · rw [if_neg hd]
      rw [List.filter_cons]
      have hskip : (d.id == v.id) = false := by
        simp [hd]
      rw [hskip]
      simp only [Bool.false_eq_true, if_false]
      exact ih h.2

/-- C4: over a store with pairwise-distinct ids (the data-model invariant),
`add_vacancy` appends when the id is absent and otherwise replaces the
matching element in place (at its index); calling it twice with the same id
and different titles leaves exactly one record under that id, carrying the
second (latest) record's data. -/
theorem claim_C4 (st : List VacDict) (v v₂ : Vacancy)
    (hnodup : (st.map VacDict.id).Nodup) :
    (v.id ∉ st.map VacDict.id → add_vacancy st v = st ++ [vacancy_to_dict v]) ∧
    (∀ i (hi : i < st.length), (st.get ⟨i, hi⟩).id = v.id →
      add_vacancy st v = st.set i (vacancy_to_dict v)) ∧
    (v₂.id = v.id → v₂.title ≠ v.title →
      (add_vacancy (add_vacancy st v) v₂).filter (fun d => d.id == v.id) =
        [vacancy_to_dict v₂]) := by
  refine ⟨fun h => add_vacancy_append st v h,
    fun i hi hid => add_vacancy_set st v hnodup i hi hid,
    fun hid _ => ?_⟩
  have h₂ := add_vacancy_nodup st v hnodup
  have h₃ := add_vacancy_filter (add_vacancy st v) v₂ h₂
  rw [hid] at h₃
  exact h₃

/-- C4, witness: adding id "a" twice (titles "a" then "B") to a one-record
store of id "x" leaves exactly one record under "a", with the second title. -/
theorem claim_C4_witness :
    (add_vacancy (add_vacancy [vacancy_to_dict (sampleVac "x")] (sampleVac "a"))
        (mkVacancy "a" "B" SalaryArg.null "" "" "" "" "" "" (some sampleDT) sampleDT)).filter
      (fun d => d.id == (sampleVac "a").id) =
    [vacancy_to_dict (mkVacancy "a" "B" SalaryArg.null "" "" "" "" "" ""
      (some sampleDT) sampleDT)] :=
  (claim_C4 [vacancy_to_dict (sampleVac "x")] (sampleVac "a")
    (mkVacancy "a" "B" SalaryArg.null "" "" "" "" "" "" (some sampleDT) sampleDT)
    (by decide)).2.2 (by decide) (by decide)

/-! ## C8: the client-side response filter -/

/-- The spec's reading of one item check: the search text appears
(case-insensitively) in name, description, snippet requirement or snippet
responsibility; when a (truthy) lower salary bound was requested and the
item carries a salary sub-object, that sub-object's `from` is present,
truthy and at least the bound (dually for the upper bound); when a (truthy)
experience id was requested, the item's experience id equals it. -/
def spec_hh_keeps (text : String) (salary_from salary_to : Option Int)
    (experience : Option String) (it : HHItem) : Prop :=
  (ciSubstr text (it.name.getD "") ∨ ciSubstr text (it.description.getD "") ∨
   ciSubstr text (match it.snippet with
     | some sn => sn.requirement.getD ""
     | none => "") ∨
   ciSubstr text (match it.snippet with
     | some sn => sn.responsibility.getD ""
     | none => "")) ∧
  (∀ n, salary_from = some n → n ≠ 0 → ∀ sd, it.salary = some sd →
    ∃ f, sd.from_ = some f ∧ f ≠ 0 ∧ n ≤ f) ∧
  (∀ n, salary_to = some n → n ≠ 0 → ∀ sd, it.salary = some sd →
    ∃ t, sd.to_ = some t ∧ t ≠ 0 ∧ t ≤ n) ∧
  (∀ e, experience = some e → e ≠ "" → hhExpId it = some e)

theorem hh_from_check_iff (salary_from : Option Int) (sd : RawSalary) :
    (if truthyInt salary_from then
        truthyInt sd.from_ && decide (salary_from.getD 0 ≤ sd.from_.getD 0)
      else true) = true ↔
    (∀ n, salary_from = some n → n ≠ 0 → ∃ f, sd.from_ = some f ∧ f ≠ 0 ∧ n ≤ f) := by
  cases salary_from with
  | none => simp [truthyInt]
  | some n =>
    by_cases hn : n = 0
    · simp [truthyInt, hn]
    · cases hf : sd.from_ with
      | none => simp [truthyInt, hn, hf]
      | some f =>
        by_cases hf0 : f = 0
        · simp [truthyInt, hn, hf, hf0]
        · simp [truthyInt, hn, hf, hf0]

theorem hh_to_check_iff (salary_to : Option Int) (sd : RawSalary) :
    (if truthyInt salary_to then
        truthyInt sd.to_ && decide (sd.to_.getD 0 ≤ salary_to.getD 0)
      else true) = true ↔
    (∀ n, salary_to = some n → n ≠ 0 → ∃ t, sd.to_ = some t ∧ t ≠ 0 ∧ t ≤ n) := by
  cases salary_to with
  | none => simp [truthyInt]
  | some n =>
    by_cases hn : n = 0
    · simp [truthyInt, hn]
    · cases ht : sd.to_ with
      | none => simp [truthyInt, hn, ht]
      | some t =>
        by_cases ht0 : t = 0
        · simp [truthyInt, hn, ht, ht0]
        · simp [truthyInt, hn, ht, ht0]

theorem hh_exp_check_iff (experience : Option String) (it : HHItem) :
    (if truthyStr experience then hhExpId it == experience else true) = true ↔
    (∀ e, experience = some e → e ≠ "" → hhExpId it = some e) := by
  cases experience with
  | none => simp [truthyStr]
  | some e =>
    by_cases he : e = ""
    · simp [truthyStr, he]
    · simp [truthyStr, he]

/-- C8: the client-side post-processing keeps, in order, exactly the items
passing the code's check chain, truncated to the requested page size, and
that check chain is equivalent to the spec's conjunction of the three active
filters. -/
theorem claim_C8 (text : String) (salary_from salary_to : Option Int)
    (experience : Option String) (per_page : Int) (items : List HHItem) :
    hh_get_vacancies text salary_from salary_to experience per_page items =
      pySliceTo (items.filter (hh_keeps text salary_from salary_to experience)) per_page ∧
    ∀ it, hh_keeps text salary_from salary_to experience it = true ↔
      spec_hh_keeps text salary_from salary_to experience it := by
  refine ⟨rfl, fun it => ?_⟩
  unfold hh_keeps spec_hh_keeps
  simp only [Bool.and_eq_true, Bool.or_eq_true, pyContains_lower_iff]
  constructor
  · intro h
    obtain ⟨⟨hA, hB⟩, hC⟩ := h
    refine ⟨?_, ?_, ?_, (hh_exp_check_iff experience it).mp hC⟩
    · rcases hA with ((ha | ha) | ha) | ha
      · exact Or.inl ha
      · exact Or.inr (Or.inl ha)
      · exact Or.inr (Or.inr (Or.inl ha))
      · exact Or.inr (Or.inr (Or.inr ha))
    · intro n hn hn0 sd hsd
      rw [hsd] at hB
      simp only [Bool.and_eq_true] at hB
      exact (hh_from_check_iff salary_from sd).mp hB.1 n hn hn0
    · intro n hn hn0 sd hsd
      rw [hsd] at hB
      simp only [Bool.and_eq_true] at hB
      exact (hh_to_check_iff salary_to sd).mp hB.2 n hn hn0
  · rintro ⟨h₁, h₂, h₃, h₄⟩
    refine ⟨⟨?_, ?_⟩, (hh_exp_check_iff experience it).mpr h₄⟩
    · rcases h₁ with ha | ha | ha | ha
      · exact Or.inl (Or.inl (Or.inl ha))
      · exact Or.inl (Or.inl (Or.inr ha))
      · exact Or.inl (Or.inr ha)
      · exact Or.inr ha
    · cases hs : it.salary with
      | none => rfl
      | some sd =>
        simp only [Bool.and_eq_true]
        exact ⟨(hh_from_check_iff salary_from sd).mpr (fun n hn hn0 => h₂ n hn hn0 sd hs),
               (hh_to_check_iff salary_to sd).mpr (fun n hn hn0 => h₃ n hn hn0 sd hs)⟩

end KursNum
